import Mathlib

/-
  Verification of the PAK dynamic-array ("PAK Arrays") engine from pak.h.

  The C engine stores a metadata header (`pak__arr`) immediately before the
  element buffer.  We embed a vector as a record holding the header fields
  together with the element buffer, modelled slot-wise: `data` is the list of
  allocated slots, each slot being the `elem_sz` bytes it holds (a byte is a
  `Nat`).  C `int` fields are embedded as `Int` (the executions the claims
  range over never overflow, and signed overflow is undefined in C anyway);
  `size_t` as `Nat`.

  The cleanup hook `gc` is an external function pointer; we model its presence
  as a `Bool` and instrument every operation with the trace of slot contents
  passed to the hook, in call order (`gcCalls`).

  `malloc`/`realloc` may fail; each allocating operation takes an `allocOk`
  flag telling whether the allocation call at that point succeeds.  Memory
  returned by `malloc`/`realloc` is uninitialized; we model fresh bytes as 0
  (no claim reads a slot at an index at or above `count`).

  `pak_assert(C)` is `if (!(C)) goto fail;` — a non-fatal early return.
-/

/-- The validity signature `PAK_ARR_SIGNATURE` (0x5F3C2A) kept in the header. -/
def PAK_ARR_SIGNATURE : Nat := 0x5F3C2A

/-- The array together with its metadata header `pak__arr`
    (fields `count`, `max`, `rate`, `elem_sz`, `sig`, `gc`). -/
structure pak__arr where
  count : Int
  max : Int
  rate : Int
  elem_sz : Nat
  sig : Nat
  /-- Whether the cleanup hook `gc` is non-null. -/
  hasGc : Bool
  /-- The allocated element buffer, one entry per slot. -/
  data : List (List Nat)
deriving DecidableEq

/-- Outcome of one engine call through `void **pp`: the C return code
    (0 success, -1 failure), the vector reachable through `*pp` afterwards
    (the header may have been mutated in place even on failure), and the
    instrumented trace of payloads passed to the cleanup hook. -/
structure ArrRet where
  rc : Int
  arr : pak__arr
  gcCalls : List (List Nat)
deriving DecidableEq

/-- The C `pak_arr_count(V)`: the `count` header field. -/
def pak_arr_count (a : pak__arr) : Int := a.count

/-- The C `pak_arr_max(V)`: the `max` (capacity) header field. -/
def pak_arr_max (a : pak__arr) : Int := a.max

/-- The C `pak_arr_elem_sz(V)`: the `elem_sz` header field. -/
def pak_arr_elem_sz (a : pak__arr) : Nat := a.elem_sz

/-- The C `pak_arr_isvalid(V)`: the signature check `header->sig == PAK_ARR_SIGNATURE`. -/
def pak_arr_isvalid (a : pak__arr) : Bool := a.sig == PAK_ARR_SIGNATURE

/-- The C `pak_arr_notype_get(V, I)`: the slot at byte offset `I * elem_sz`,
    i.e. slot index `I`. -/
def pak_arr_notype_get (a : pak__arr) (i : Int) : List Nat :=
  a.data.getD i.toNat []

/-- The C `pak_arr_notype_last(V)`: the slot at index `count - 1`. -/
def pak_arr_notype_last (a : pak__arr) : List Nat :=
  pak_arr_notype_get a (pak_arr_count a - 1)

/-- The loop `while (head->gc && --head->count > k) head->gc(pak_arr_notype_last(arr));`
    shared by `pak__arr_free` (with `k = 0`) and `pak__arr_resize` (with
    `k = max`), in the case where the hook is present.  `count` is decremented
    before each test; when the test passes, the hook receives the slot at the
    already-decremented `count - 1`.  Returns the final value of `count` and
    the payloads passed to the hook, in call order. -/
def pak__gc_drain (data : List (List Nat)) (k : Int) (count : Int) :
    Int × List (List Nat) :=
  if h : count - 1 > k then
    let rest := pak__gc_drain data k (count - 1)
    (rest.1, data.getD (count - 1 - 1).toNat [] :: rest.2)
  else (count - 1, [])
termination_by (count - k).toNat
decreasing_by omega

/-- The C `pak__arr_new(sz, max)`: allocates header plus `max` slots and fills in the
    header.  Fails (returns NULL, here `none`) when `max <= 0` or when the
    `pak_malloc` call fails (`allocOk = false`). -/
def pak__arr_new (allocOk : Bool) (sz : Nat) (max : Int) : Option pak__arr :=
  if max > 0 then
    if allocOk then
      some { count := 0, max := max, rate := max, elem_sz := sz,
             sig := PAK_ARR_SIGNATURE, hasGc := false,
             data := List.replicate max.toNat (List.replicate sz 0) }
    else none
  else none

/-- The C `pak__arr_new_gc(sz, max, gc)`: `pak__arr_new` followed by storing the
    cleanup hook. -/
def pak__arr_new_gc (allocOk : Bool) (sz : Nat) (max : Int) (gc : Bool) :
    Option pak__arr :=
  match pak__arr_new allocOk sz max with
  | some a => some { a with hasGc := gc }
  | none => none

/-- The C `pak__arr_free(pp)`: checks the signature, runs the cleanup loop
    `while (head->gc && --head->count > 0) head->gc(pak_arr_notype_last(arr));`,
    then releases the allocation and nulls `*pp`.  The observable outcome is
    the hook trace; `none` means the signature check failed and nothing was
    freed. -/
def pak__arr_free (a : pak__arr) : Option (List (List Nat)) :=
  if a.sig = PAK_ARR_SIGNATURE then
    some (if a.hasGc then (pak__gc_drain a.data 0 a.count).2 else [])
  else none

/-- Model of `pak_realloc` on the element buffer: the new block holds `max`
    slots, the common prefix of the old contents is preserved, and any fresh
    slots are uninitialized (modelled as zero bytes of width `sz`). -/
def reallocData (data : List (List Nat)) (sz : Nat) (max : Int) :
    List (List Nat) :=
  data.take max.toNat ++
    List.replicate (max.toNat - data.length) (List.replicate sz 0)

/-- The C `pak__arr_resize(pp, max)`:
    asserts `max > 0` and the signature; if `max < count`, runs the cleanup
    loop `while (head->gc && --head->count > max) head->gc(...)` and then
    assigns `head->count = max` (the loop's final `count` is immediately
    overwritten, so only its hook trace is observable); assigns
    `head->max = max`; finally calls `pak_realloc`, failing with -1 when it
    fails — note both header mutations have already happened by then. -/
def pak__arr_resize (allocOk : Bool) (a : pak__arr) (max : Int) : ArrRet :=
  if max > 0 then
    if a.sig = PAK_ARR_SIGNATURE then
      let tr : List (List Nat) :=
        if max < a.count ∧ a.hasGc then (pak__gc_drain a.data max a.count).2
        else []
      let a1 : pak__arr :=
        if max < a.count then { a with count := max } else a
      let a2 : pak__arr := { a1 with max := max }
      if allocOk then
        { rc := 0,
          arr := { a2 with data := reallocData a2.data a2.elem_sz max },
          gcCalls := tr }
      else
        { rc := -1, arr := a2, gcCalls := tr }
    else { rc := -1, arr := a, gcCalls := [] }
  else { rc := -1, arr := a, gcCalls := [] }

/-- The C `pak__arr_expand(pp)`: `pak__arr_resize(pp, head->max + head->rate)`. -/
def pak__arr_expand (allocOk : Bool) (a : pak__arr) : ArrRet :=
  pak__arr_resize allocOk a (a.max + a.rate)

/-- The C `pak__arr_contract(pp)`: `pak__arr_resize(pp, head->max - head->rate)`. -/
def pak__arr_contract (allocOk : Bool) (a : pak__arr) : ArrRet :=
  pak__arr_resize allocOk a (a.max - a.rate)

/-- The C `pak__arr_push(pp, sz, e)`: asserts the signature and `sz == elem_sz`;
    expands first when `count >= max`, failing if the expansion fails (the
    header already carries the expanded `max` in that case); then increments
    `count` and copies the `sz` bytes of `e` into the now-last slot. -/
def pak__arr_push (allocOk : Bool) (a : pak__arr) (sz : Nat) (e : List Nat) :
    ArrRet :=
  if a.sig = PAK_ARR_SIGNATURE then
    if sz = a.elem_sz then
      let r : ArrRet :=
        if a.count ≥ a.max then pak__arr_expand allocOk a
        else { rc := 0, arr := a, gcCalls := [] }
      if r.rc = 0 then
        let b : pak__arr := { r.arr with count := r.arr.count + 1 }
        { rc := 0,
          arr := { b with data := b.data.set (b.count - 1).toNat e },
          gcCalls := r.gcCalls }
      else { rc := -1, arr := r.arr, gcCalls := r.gcCalls }
    else { rc := -1, arr := a, gcCalls := [] }
  else { rc := -1, arr := a, gcCalls := [] }

/-- The C `pak__arr_pop(pp)`: asserts the signature; when `count > 0`, passes the
    last slot to the hook (if present), decrements `count`, and when
    `count < max - rate` calls `pak__arr_contract`, discarding its return
    code.  Returns 0 in every case except a signature mismatch. -/
def pak__arr_pop (allocOk : Bool) (a : pak__arr) : ArrRet :=
  if a.sig = PAK_ARR_SIGNATURE then
    if a.count > 0 then
      let tr : List (List Nat) :=
        if a.hasGc then [pak_arr_notype_last a] else []
      let a1 : pak__arr := { a with count := a.count - 1 }
      if a1.count < a1.max - a1.rate then
        let r := pak__arr_contract allocOk a1
        { rc := 0, arr := r.arr, gcCalls := tr ++ r.gcCalls }
      else { rc := 0, arr := a1, gcCalls := tr }
    else { rc := 0, arr := a, gcCalls := [] }
  else { rc := -1, arr := a, gcCalls := [] }

/-! ### Field-level characterization of `pak__arr_resize` -/

theorem resize_rc (ok : Bool) (a : pak__arr) (m : Int) :
    (pak__arr_resize ok a m).rc =
      if 0 < m ∧ a.sig = PAK_ARR_SIGNATURE then (if ok = true then 0 else -1)
      else -1 := by
  simp only [pak__arr_resize]
  split_ifs <;> simp_all

theorem resize_count (ok : Bool) (a : pak__arr) (m : Int) :
    (pak__arr_resize ok a m).arr.count =
      if 0 < m ∧ a.sig = PAK_ARR_SIGNATURE then
        (if m < a.count then m else a.count)
      else a.count := by
  simp only [pak__arr_resize]
  split_ifs <;> simp_all

theorem resize_max (ok : Bool) (a : pak__arr) (m : Int) :
    (pak__arr_resize ok a m).arr.max =
      if 0 < m ∧ a.sig = PAK_ARR_SIGNATURE then m else a.max := by
  simp only [pak__arr_resize]
  split_ifs <;> simp_all

theorem resize_rate (ok : Bool) (a : pak__arr) (m : Int) :
    (pak__arr_resize ok a m).arr.rate = a.rate := by
  simp only [pak__arr_resize]
  split_ifs <;> simp_all

theorem resize_elem_sz (ok : Bool) (a : pak__arr) (m : Int) :
    (pak__arr_resize ok a m).arr.elem_sz = a.elem_sz := by
  simp only [pak__arr_resize]
  split_ifs <;> simp_all

theorem resize_sig (ok : Bool) (a : pak__arr) (m : Int) :
    (pak__arr_resize ok a m).arr.sig = a.sig := by
  simp only [pak__arr_resize]
  split_ifs <;> simp_all

theorem resize_hasGc (ok : Bool) (a : pak__arr) (m : Int) :
    (pak__arr_resize ok a m).arr.hasGc = a.hasGc := by
  simp only [pak__arr_resize]
  split_ifs <;> simp_all

theorem resize_data (ok : Bool) (a : pak__arr) (m : Int) :
    (pak__arr_resize ok a m).arr.data =
      if 0 < m ∧ a.sig = PAK_ARR_SIGNATURE then
        (if ok = true then reallocData a.data a.elem_sz m else a.data)
      else a.data := by
  simp only [pak__arr_resize]
  split_ifs <;> simp_all

theorem resize_gcCalls (ok : Bool) (a : pak__arr) (m : Int) :
    (pak__arr_resize ok a m).gcCalls =
      if 0 < m ∧ a.sig = PAK_ARR_SIGNATURE then
        (if m < a.count ∧ a.hasGc = true then (pak__gc_drain a.data m a.count).2
         else [])
      else [] := by
  simp only [pak__arr_resize]
  split_ifs <;> simp_all

/-! ### Case analysis of `pak__arr_push` -/

theorem push_cases (ok : Bool) (a : pak__arr) (sz : Nat) (e : List Nat) :
    (a.sig ≠ PAK_ARR_SIGNATURE ∧ pak__arr_push ok a sz e = ⟨-1, a, []⟩) ∨
    (a.sig = PAK_ARR_SIGNATURE ∧ sz ≠ a.elem_sz ∧
      pak__arr_push ok a sz e = ⟨-1, a, []⟩) ∨
    (a.sig = PAK_ARR_SIGNATURE ∧ sz = a.elem_sz ∧ ∃ r : ArrRet,
      r = (if a.count ≥ a.max then pak__arr_expand ok a
           else { rc := 0, arr := a, gcCalls := [] }) ∧
      ((r.rc = 0 ∧ pak__arr_push ok a sz e =
          ⟨0, { r.arr with
                  count := r.arr.count + 1
                  data := r.arr.data.set (r.arr.count + 1 - 1).toNat e },
           r.gcCalls⟩) ∨
       (r.rc ≠ 0 ∧ pak__arr_push ok a sz e = ⟨-1, r.arr, r.gcCalls⟩))) := by
  by_cases hsig : a.sig = PAK_ARR_SIGNATURE
  · by_cases hsz : sz = a.elem_sz
    · refine Or.inr (Or.inr ⟨hsig, hsz, ?_⟩)
      refine ⟨_, rfl, ?_⟩
      by_cases hrc :
          (if a.count ≥ a.max then pak__arr_expand ok a
           else { rc := 0, arr := a, gcCalls := [] } : ArrRet).rc = 0
      · exact Or.inl ⟨hrc, by simp only [pak__arr_push, if_pos hsig, if_pos hsz,
          if_pos hrc]⟩
      · exact Or.inr ⟨hrc, by simp only [pak__arr_push, if_pos hsig, if_pos hsz,
          if_neg hrc]⟩
    · exact Or.inr (Or.inl ⟨hsig, hsz, by simp [pak__arr_push, hsig, hsz]⟩)
  · exact Or.inl ⟨hsig, by simp [pak__arr_push, hsig]⟩

/-! ### The numeric header invariant -/

/-- The header invariant maintained by every engine operation:
    `0 <= count <= max`, `max >= 1`, and the growth rate is positive
    (it is set to the initial capacity at creation and never changes). -/
def pak_arr_inv (a : pak__arr) : Prop :=
  0 ≤ a.count ∧ a.count ≤ a.max ∧ 1 ≤ a.max ∧ 1 ≤ a.rate

theorem inv_resize (ok : Bool) (a : pak__arr) (m : Int) (h : pak_arr_inv a) :
    pak_arr_inv (pak__arr_resize ok a m).arr := by
  obtain ⟨h0, h1, h2, h3⟩ := h
  unfold pak_arr_inv
  refine ⟨?_, ?_, ?_, ?_⟩ <;>
    simp only [resize_count, resize_max, resize_rate] <;>
    first
      | (split_ifs <;> omega)
      | omega

theorem inv_expand (ok : Bool) (a : pak__arr) (h : pak_arr_inv a) :
    pak_arr_inv (pak__arr_expand ok a).arr := inv_resize ok a _ h

theorem inv_contract (ok : Bool) (a : pak__arr) (h : pak_arr_inv a) :
    pak_arr_inv (pak__arr_contract ok a).arr := inv_resize ok a _ h

theorem inv_push (ok : Bool) (a : pak__arr) (sz : Nat) (e : List Nat)
    (h : pak_arr_inv a) : pak_arr_inv (pak__arr_push ok a sz e).arr := by
  obtain ⟨h0, h1, h2, h3⟩ := h
  rcases push_cases ok a sz e with ⟨_, heq⟩ | ⟨_, _, heq⟩ |
    ⟨hsig, hsz, r, hr, ⟨hrc, heq⟩ | ⟨hrc, heq⟩⟩
  · rw [heq]; exact ⟨h0, h1, h2, h3⟩
  · rw [heq]; exact ⟨h0, h1, h2, h3⟩
  · -- successful push: count goes up by one, staying within the (possibly
    -- freshly expanded) capacity
    rw [heq]
    by_cases hfull : a.count ≥ a.max
    · rw [if_pos hfull] at hr
      have hc := resize_count ok a (a.max + a.rate)
      have hm := resize_max ok a (a.max + a.rate)
      have hra := resize_rate ok a (a.max + a.rate)
      have hz := resize_rc ok a (a.max + a.rate)
      rw [hr] at hrc ⊢
      unfold pak__arr_expand at hrc ⊢
      rw [hz] at hrc
      unfold pak_arr_inv
      refine ⟨?_, ?_, ?_, ?_⟩ <;>
        dsimp only <;> simp only [hc, hm, hra] <;> split_ifs at hrc ⊢ <;> omega
    · rw [if_neg hfull] at hr
      rw [hr]
      refine ⟨?_, ?_, ?_, ?_⟩ <;> dsimp only <;> omega
  · -- failed expansion: the caller sees the state the expansion left behind
    rw [heq]
    dsimp only
    by_cases hfull : a.count ≥ a.max
    · rw [hr, if_pos hfull]
      exact inv_expand ok a ⟨h0, h1, h2, h3⟩
    · rw [hr, if_neg hfull]
      exact ⟨h0, h1, h2, h3⟩

theorem inv_pop (ok : Bool) (a : pak__arr) (h : pak_arr_inv a) :
    pak_arr_inv (pak__arr_pop ok a).arr := by
  obtain ⟨h0, h1, h2, h3⟩ := h
  by_cases hsig : a.sig = PAK_ARR_SIGNATURE
  · by_cases hpos : a.count > 0
    · by_cases htrig : a.count - 1 < a.max - a.rate
      · have : (pak__arr_pop ok a).arr =
            (pak__arr_contract ok { a with count := a.count - 1 }).arr := by
          simp only [pak__arr_pop, if_pos hsig, if_pos hpos]
          rw [if_pos htrig]
        rw [this]
        refine inv_contract ok _ ⟨?_, ?_, ?_, ?_⟩ <;> dsimp only <;> omega
      · have : (pak__arr_pop ok a).arr = { a with count := a.count - 1 } := by
          simp only [pak__arr_pop, if_pos hsig, if_pos hpos]
          rw [if_neg htrig]
        rw [this]
        refine ⟨?_, ?_, ?_, ?_⟩ <;> dsimp only <;> omega
    · simp only [pak__arr_pop, if_pos hsig, if_neg hpos]
      exact ⟨h0, h1, h2, h3⟩
  · simp only [pak__arr_pop, if_neg hsig]
    exact ⟨h0, h1, h2, h3⟩

theorem inv_new_gc (ok : Bool) (sz : Nat) (m : Int) (gc : Bool) (a : pak__arr)
    (h : pak__arr_new_gc ok sz m gc = some a) : pak_arr_inv a := by
  by_cases h1 : m > 0
  · by_cases h2 : ok = true
    · simp only [pak__arr_new_gc, pak__arr_new, if_pos h1, if_pos h2,
        Option.some.injEq] at h
      subst h
      refine ⟨?_, ?_, ?_, ?_⟩ <;> dsimp only <;> omega
    · simp [pak__arr_new_gc, pak__arr_new, h1, h2] at h
  · simp [pak__arr_new_gc, pak__arr_new, h1] at h

/-- All vectors reachable from a successful creation by any sequence of
    push, pop, resize, expand and contract calls, successful or failed. -/
inductive pak_arr_reachable : pak__arr → Prop
  | create (ok : Bool) (sz : Nat) (m : Int) (gc : Bool) (a : pak__arr) :
      pak__arr_new_gc ok sz m gc = some a → pak_arr_reachable a
  | push (ok : Bool) (sz : Nat) (e : List Nat) (a : pak__arr) :
      pak_arr_reachable a → pak_arr_reachable (pak__arr_push ok a sz e).arr
  | pop (ok : Bool) (a : pak__arr) :
      pak_arr_reachable a → pak_arr_reachable (pak__arr_pop ok a).arr
  | resize (ok : Bool) (m : Int) (a : pak__arr) :
      pak_arr_reachable a → pak_arr_reachable (pak__arr_resize ok a m).arr
  | expand (ok : Bool) (a : pak__arr) :
      pak_arr_reachable a → pak_arr_reachable (pak__arr_expand ok a).arr
  | contract (ok : Bool) (a : pak__arr) :
      pak_arr_reachable a → pak_arr_reachable (pak__arr_contract ok a).arr

theorem reachable_inv (a : pak__arr) (h : pak_arr_reachable a) :
    pak_arr_inv a := by
  induction h with
  | create ok sz m gc a h => exact inv_new_gc ok sz m gc a h
  | push ok sz e a _ ih => exact inv_push ok a sz e ih
  | pop ok a _ ih => exact inv_pop ok a ih
  | resize ok m a _ ih => exact inv_resize ok a m ih
  | expand ok a _ ih => exact inv_expand ok a ih
  | contract ok a _ ih => exact inv_contract ok a ih

/-! ### Behaviour of `pak__arr_pop` -/

theorem pop_count_dec (ok : Bool) (a : pak__arr)
    (hsig : a.sig = PAK_ARR_SIGNATURE) (hpos : 0 < a.count) :
    (pak__arr_pop ok a).arr.count = a.count - 1 := by
  by_cases htrig : a.count - 1 < a.max - a.rate
  · have hstep : (pak__arr_pop ok a).arr =
        (pak__arr_contract ok { a with count := a.count - 1 }).arr := by
      simp only [pak__arr_pop, if_pos hsig, if_pos hpos]
      rw [if_pos (by omega)]
    rw [hstep]
    unfold pak__arr_contract
    rw [resize_count]
    dsimp only
    split_ifs <;> omega
  · have hstep : (pak__arr_pop ok a).arr = { a with count := a.count - 1 } := by
      simp only [pak__arr_pop, if_pos hsig, if_pos hpos]
      rw [if_neg (by omega)]
    rw [hstep]

theorem pop_gcCalls (ok : Bool) (a : pak__arr)
    (hsig : a.sig = PAK_ARR_SIGNATURE) (hpos : 0 < a.count) :
    (pak__arr_pop ok a).gcCalls =
      if a.hasGc = true then [pak_arr_notype_last a] else [] := by
  by_cases htrig : a.count - 1 < a.max - a.rate
  · simp only [pak__arr_pop, if_pos hsig, if_pos hpos]
    rw [if_pos (by omega)]
    dsimp only
    unfold pak__arr_contract
    rw [resize_gcCalls]
    dsimp only
    split_ifs <;> first | omega | simp
  · simp only [pak__arr_pop, if_pos hsig, if_pos hpos]
    rw [if_neg (by omega)]

/-! ### Claim C4 -/

/-- C4: for a valid vector with `count > 0`, pop passes the last element
(slot `count - 1`) to the cleanup hook when one is present, decrements
`count` by exactly one, and then performs `resize(handle, capacity - rate)`
(a contraction by exactly one growth rate) if and only if the new count is
strictly below `capacity - rate`; otherwise the capacity is left unchanged. -/
theorem C4_pop_hysteresis (ok : Bool) (a : pak__arr)
    (hsig : a.sig = PAK_ARR_SIGNATURE) (hpos : 0 < a.count) :
    (pak__arr_pop ok a).arr.count = a.count - 1 ∧
    (pak__arr_pop ok a).gcCalls =
      (if a.hasGc = true then [pak_arr_notype_last a] else []) ∧
    (a.count - 1 < a.max - a.rate →
      (pak__arr_pop ok a).arr =
        (pak__arr_resize ok { a with count := a.count - 1 }
          (a.max - a.rate)).arr) ∧
    (a.max - a.rate ≤ a.count - 1 →
      (pak__arr_pop ok a).arr = { a with count := a.count - 1 } ∧
      (pak__arr_pop ok a).arr.max = a.max) := by
  refine ⟨pop_count_dec ok a hsig hpos, pop_gcCalls ok a hsig hpos, ?_, ?_⟩
  · intro htrig
    simp only [pak__arr_pop, if_pos hsig, if_pos hpos]
    rw [if_pos (by omega)]
    dsimp only [pak__arr_contract]
  · intro hno
    have hstep : (pak__arr_pop ok a).arr = { a with count := a.count - 1 } := by
      simp only [pak__arr_pop, if_pos hsig, if_pos hpos]
      rw [if_neg (by omega)]
    exact ⟨hstep, by rw [hstep]⟩

/-- Concrete input for applying `C4_pop_hysteresis`. -/
def c4w : pak__arr :=
  { count := 1, max := 6, rate := 3, elem_sz := 1, sig := PAK_ARR_SIGNATURE,
    hasGc := true, data := [[10], [20], [30], [40], [50], [60]] }

theorem C4_witness :
    (c4w.sig = PAK_ARR_SIGNATURE ∧ 0 < c4w.count) ∧
    ((pak__arr_pop true c4w).arr.count = c4w.count - 1 ∧
     (pak__arr_pop true c4w).gcCalls =
       (if c4w.hasGc = true then [pak_arr_notype_last c4w] else []) ∧
     (c4w.count - 1 < c4w.max - c4w.rate →
       (pak__arr_pop true c4w).arr =
         (pak__arr_resize true { c4w with count := c4w.count - 1 }
           (c4w.max - c4w.rate)).arr) ∧
     (c4w.max - c4w.rate ≤ c4w.count - 1 →
       (pak__arr_pop true c4w).arr = { c4w with count := c4w.count - 1 } ∧
       (pak__arr_pop true c4w).arr.max = c4w.max)) :=
  ⟨⟨rfl, by decide⟩, C4_pop_hysteresis true c4w rfl (by decide)⟩

/-! ### Claim C5 -/

/-- C5: every vector reachable from a successful create through any sequence
of push, pop, resize, expand and contract calls (successful or failed)
satisfies `0 <= count <= capacity` and `capacity >= 1`; in particular no
automatic or explicit contraction ever brings the capacity below 1. -/
theorem C5_reachable_invariants (a : pak__arr) (h : pak_arr_reachable a) :
    0 ≤ pak_arr_count a ∧ pak_arr_count a ≤ pak_arr_max a ∧
      1 ≤ pak_arr_max a := by
  obtain ⟨h0, h1, h2, _⟩ := reachable_inv a h
  exact ⟨h0, h1, h2⟩

/-- Concrete freshly created vector for applying `C5_reachable_invariants`. -/
def c5w : pak__arr :=
  { count := 0, max := 2, rate := 2, elem_sz := 1, sig := PAK_ARR_SIGNATURE,
    hasGc := false, data := [[0], [0]] }

theorem C5_witness :
    pak_arr_reachable c5w ∧
    (0 ≤ pak_arr_count c5w ∧ pak_arr_count c5w ≤ pak_arr_max c5w ∧
      1 ≤ pak_arr_max c5w) :=
  ⟨pak_arr_reachable.create true 1 2 false c5w (by decide),
   C5_reachable_invariants c5w
     (pak_arr_reachable.create true 1 2 false c5w (by decide))⟩

/-! ### Claim C7 -/

/-- C7: for a valid vector and `m > 0`, after a successful `resize(handle, m)`
the capacity reads `m` and the count is the minimum of the previous count
and `m`. -/
theorem C7_resize_success_post (ok : Bool) (a : pak__arr) (m : Int)
    (_hsig : a.sig = PAK_ARR_SIGNATURE)
    (h : (pak__arr_resize ok a m).rc = 0) :
    pak_arr_max (pak__arr_resize ok a m).arr = m ∧
    pak_arr_count (pak__arr_resize ok a m).arr = min a.count m := by
  have hz := resize_rc ok a m
  rw [h] at hz
  by_cases hcond : 0 < m ∧ a.sig = PAK_ARR_SIGNATURE
  · have hc := resize_count ok a m
    have hx := resize_max ok a m
    rw [if_pos hcond] at hc hx
    unfold pak_arr_max pak_arr_count
    refine ⟨hx, ?_⟩
    rw [hc]
    split_ifs <;> omega
  · rw [if_neg hcond] at hz
    omega

/-- Concrete input for applying `C7_resize_success_post`. -/
def c7w : pak__arr :=
  { count := 3, max := 3, rate := 3, elem_sz := 1, sig := PAK_ARR_SIGNATURE,
    hasGc := false, data := [[1], [2], [3]] }

theorem C7_witness :
    (c7w.sig = PAK_ARR_SIGNATURE ∧ (pak__arr_resize true c7w 2).rc = 0) ∧
    (pak_arr_max (pak__arr_resize true c7w 2).arr = 2 ∧
     pak_arr_count (pak__arr_resize true c7w 2).arr = min c7w.count 2) :=
  ⟨⟨rfl, by decide⟩, C7_resize_success_post true c7w 2 rfl (by decide)⟩

/-! ### Claim C8 -/

/-- C8: on a valid vector with `count == 0`, pop succeeds as a no-op: return
code 0, no hook call, state (count and capacity included) untouched — and
hence any number of repeated pops leaves the vector untouched as well. -/
theorem C8_pop_empty_noop (ok : Bool) (a : pak__arr)
    (hsig : a.sig = PAK_ARR_SIGNATURE) (h0 : a.count = 0) :
    pak__arr_pop ok a = { rc := 0, arr := a, gcCalls := [] } ∧
    ∀ n : Nat, (fun s => (pak__arr_pop ok s).arr)^[n] a = a := by
  have h : pak__arr_pop ok a = { rc := 0, arr := a, gcCalls := [] } := by
    simp only [pak__arr_pop, if_pos hsig]
    rw [if_neg (by omega)]
  have ha : (pak__arr_pop ok a).arr = a := by rw [h]
  refine ⟨h, ?_⟩
  intro n
  induction n with
  | zero => rfl
  | succ n ih =>
    simp only [Function.iterate_succ_apply, ha]
    exact ih

/-- Concrete input for applying `C8_pop_empty_noop`. -/
def c8w : pak__arr :=
  { count := 0, max := 4, rate := 4, elem_sz := 2, sig := PAK_ARR_SIGNATURE,
    hasGc := true, data := [[0, 0], [0, 0], [0, 0], [0, 0]] }

theorem C8_witness :
    (c8w.sig = PAK_ARR_SIGNATURE ∧ c8w.count = 0) ∧
    (pak__arr_pop false c8w = { rc := 0, arr := c8w, gcCalls := [] } ∧
     ∀ n : Nat, (fun s => (pak__arr_pop false s).arr)^[n] c8w = c8w) :=
  ⟨⟨rfl, rfl⟩, C8_pop_empty_noop false c8w rfl rfl⟩

/-! ### Claim C10 -/

/-- C10: on any vector whose signature is intact, pop returns success (0),
even when the internally triggered contraction fails (its return code is
discarded); and when there was an element to remove, the removal takes
effect (`count` drops by one) regardless. -/
theorem C10_pop_always_succeeds (ok : Bool) (a : pak__arr)
    (hsig : a.sig = PAK_ARR_SIGNATURE) :
    (pak__arr_pop ok a).rc = 0 ∧
    (0 < a.count → (pak__arr_pop ok a).arr.count = a.count - 1) := by
  refine ⟨?_, fun hpos => pop_count_dec ok a hsig hpos⟩
  by_cases hpos : a.count > 0
  · by_cases htrig : a.count - 1 < a.max - a.rate
    · simp only [pak__arr_pop, if_pos hsig, if_pos hpos]
      rw [if_pos (by omega)]
    · simp only [pak__arr_pop, if_pos hsig, if_pos hpos]
      rw [if_neg (by omega)]
  · simp only [pak__arr_pop, if_pos hsig, if_neg hpos]

/-- Concrete input for applying `C10_pop_always_succeeds`: popping it with the
contraction's reallocation failing (`allocOk = false`) still returns 0. -/
def c10w : pak__arr :=
  { count := 1, max := 6, rate := 3, elem_sz := 1, sig := PAK_ARR_SIGNATURE,
    hasGc := false, data := [[1], [2], [3], [4], [5], [6]] }

theorem C10_witness :
    c10w.sig = PAK_ARR_SIGNATURE ∧
    ((pak__arr_pop false c10w).rc = 0 ∧
     (0 < c10w.count → (pak__arr_pop false c10w).arr.count = c10w.count - 1)) :=
  ⟨rfl, C10_pop_always_succeeds false c10w rfl⟩

/-! ### Claim C3 -/

/-- Concrete input refuting the claim that a failed resize leaves the vector
unmodified. -/
def c3cex : pak__arr :=
  { count := 0, max := 1, rate := 1, elem_sz := 1, sig := PAK_ARR_SIGNATURE,
    hasGc := false, data := [[0]] }

/-- C3 is false as stated: on `c3cex` (capacity 1), `resize(handle, 2)` whose
backing reallocation fails returns an error, yet the vector is modified — its
capacity field afterwards reads 2, not the original 1. -/
theorem C3_counterexample :
    (pak__arr_resize false c3cex 2).rc = -1 ∧
    pak_arr_max (pak__arr_resize false c3cex 2).arr = 2 ∧
    pak_arr_max c3cex = 1 := by decide

/-- C3 (amended): when `resize(handle, m)` (valid vector, `m > 0`) fails
because the backing reallocation fails, it returns an error and leaves the
growth rate, the element size and the stored element bytes untouched, and the
count clamped to `min(count, m)`, but the capacity field has already been
overwritten with `m`; likewise a push whose automatic expansion fails to
reallocate returns an error with count and element bytes unchanged but with
the capacity field already advanced by one growth rate. -/
theorem C3_failed_realloc_state (a : pak__arr) (m : Int)
    (hsig : a.sig = PAK_ARR_SIGNATURE) (hm : 0 < m)
    (h0 : 0 ≤ a.count) (h1 : a.count ≤ a.max) (hr : 1 ≤ a.rate) :
    ((pak__arr_resize false a m).rc = -1 ∧
     (pak__arr_resize false a m).arr.count = min a.count m ∧
     (pak__arr_resize false a m).arr.max = m ∧
     (pak__arr_resize false a m).arr.rate = a.rate ∧
     (pak__arr_resize false a m).arr.elem_sz = a.elem_sz ∧
     (pak__arr_resize false a m).arr.data = a.data) ∧
    (∀ e : List Nat, a.max ≤ a.count →
      (pak__arr_push false a a.elem_sz e).rc = -1 ∧
      (pak__arr_push false a a.elem_sz e).arr.count = a.count ∧
      (pak__arr_push false a a.elem_sz e).arr.max = a.max + a.rate ∧
      (pak__arr_push false a a.elem_sz e).arr.data = a.data) := by
  have hcond : 0 < m ∧ a.sig = PAK_ARR_SIGNATURE := ⟨hm, hsig⟩
  constructor
  · refine ⟨?_, ?_, ?_, resize_rate false a m, resize_elem_sz false a m, ?_⟩
    · rw [resize_rc, if_pos hcond]; simp
    · rw [resize_count, if_pos hcond]; split_ifs <;> omega
    · rw [resize_max, if_pos hcond]
    · rw [resize_data, if_pos hcond]; simp
  · intro e hfull
    have hcondx : 0 < a.max + a.rate ∧ a.sig = PAK_ARR_SIGNATURE :=
      ⟨by omega, hsig⟩
    have hexp : (pak__arr_expand false a).rc = -1 := by
      unfold pak__arr_expand
      rw [resize_rc, if_pos hcondx]
      simp
    rcases push_cases false a a.elem_sz e with ⟨hns, _⟩ | ⟨_, hne, _⟩ |
      ⟨_, _, r, hr2, ⟨hrc, _⟩ | ⟨hrc, heq⟩⟩
    · exact absurd hsig hns
    · exact absurd rfl hne
    · rw [hr2, if_pos hfull, hexp] at hrc
      exact absurd hrc (by decide)
    · rw [hr2, if_pos hfull] at heq
      rw [heq]
      dsimp only
      unfold pak__arr_expand
      refine ⟨rfl, ?_, ?_, ?_⟩
      · rw [resize_count, if_pos hcondx]
        split_ifs <;> omega
      · rw [resize_max, if_pos hcondx]
      · rw [resize_data, if_pos hcondx]
        simp

/-- Concrete input for applying `C3_failed_realloc_state`: a full, valid,
2-slot vector. -/
def c3w : pak__arr :=
  { count := 2, max := 2, rate := 2, elem_sz := 1, sig := PAK_ARR_SIGNATURE,
    hasGc := false, data := [[7], [8]] }

theorem C3_witness :
    (c3w.sig = PAK_ARR_SIGNATURE ∧ 0 < (3 : Int) ∧ 0 ≤ c3w.count ∧
      c3w.count ≤ c3w.max ∧ 1 ≤ c3w.rate) ∧
    (((pak__arr_resize false c3w 3).rc = -1 ∧
      (pak__arr_resize false c3w 3).arr.count = min c3w.count 3 ∧
      (pak__arr_resize false c3w 3).arr.max = 3 ∧
      (pak__arr_resize false c3w 3).arr.rate = c3w.rate ∧
      (pak__arr_resize false c3w 3).arr.elem_sz = c3w.elem_sz ∧
      (pak__arr_resize false c3w 3).arr.data = c3w.data) ∧
     (∀ e : List Nat, c3w.max ≤ c3w.count →
       (pak__arr_push false c3w c3w.elem_sz e).rc = -1 ∧
       (pak__arr_push false c3w c3w.elem_sz e).arr.count = c3w.count ∧
       (pak__arr_push false c3w c3w.elem_sz e).arr.max = c3w.max + c3w.rate ∧
       (pak__arr_push false c3w c3w.elem_sz e).arr.data = c3w.data)) :=
  ⟨⟨rfl, by decide, by decide, by decide, by decide⟩,
   C3_failed_realloc_state c3w 3 rfl (by decide) (by decide) (by decide)
     (by decide)⟩

/-! ### Claim C1 -/

/-- Concrete input showing the resize cleanup loop's off-by-one. -/
def c1arr : pak__arr :=
  { count := 3, max := 3, rate := 3, elem_sz := 1, sig := PAK_ARR_SIGNATURE,
    hasGc := true, data := [[10], [20], [30]] }

/-- C1 fails on the code: resizing the 3-element, hook-bearing vector `c1arr`
down to capacity 1 discards the elements at indices 1 and 2, but the cleanup
hook only receives the slot at index 1 (content `[20]`).  The topmost
discarded element (index 2, content `[30]`) is never passed to the hook,
because the loop `while (head->gc && --head->count > max)` decrements `count`
before the first test and call. -/
theorem C1_resize_skips_last_discarded :
    (pak__arr_resize true c1arr 1).rc = 0 ∧
    pak_arr_count (pak__arr_resize true c1arr 1).arr = 1 ∧
    (pak__arr_resize true c1arr 1).gcCalls = [[20]] := by
  refine ⟨by decide, by decide, ?_⟩
  simp [pak__arr_resize, c1arr, pak__gc_drain, PAK_ARR_SIGNATURE]

/-! ### Claim C2 -/

/-- Concrete input showing the destruction cleanup loop's off-by-one. -/
def c2arr : pak__arr :=
  { count := 3, max := 3, rate := 3, elem_sz := 1, sig := PAK_ARR_SIGNATURE,
    hasGc := true, data := [[10], [20], [30]] }

/-- C2 fails on the code: freeing the 3-element, hook-bearing vector `c2arr`
passes only the slots at indices 1 and 0 (contents `[20]`, `[10]`) to the
cleanup hook.  The last live element (index 2, content `[30]`) is never
passed to the hook, because the loop `while (head->gc && --head->count > 0)`
decrements `count` before the first test and call; popping the same vector
three times would instead invoke the hook on `[30]`, `[20]`, `[10]`. -/
theorem C2_free_skips_last_element :
    pak__arr_free c2arr = some [[20], [10]] := by
  simp [pak__arr_free, c2arr, pak__gc_drain, PAK_ARR_SIGNATURE]

/-! ### Buffer lemmas -/

theorem reallocData_length (d : List (List Nat)) (sz : Nat) (m : Int) :
    (reallocData d sz m).length = m.toNat := by
  simp [reallocData]
  omega

theorem reallocData_getD (d : List (List Nat)) (sz : Nat) (m : Int) (i : Nat)
    (hi : i < d.length) (him : i < m.toNat) :
    (reallocData d sz m).getD i [] = d.getD i [] := by
  unfold reallocData
  rw [List.getD_eq_getElem?_getD, List.getD_eq_getElem?_getD,
    List.getElem?_append_left (by simp [List.length_take]; omega),
    List.getElem?_take_of_lt him]

theorem getD_set_self (l : List (List Nat)) (i : Nat) (v : List Nat)
    (h : i < l.length) : (l.set i v).getD i [] = v := by
  rw [List.getD_eq_getElem?_getD, List.getElem?_set_self h]
  rfl

theorem getD_set_ne (l : List (List Nat)) (i j : Nat) (v : List Nat)
    (h : i ≠ j) : (l.set i v).getD j [] = l.getD j [] := by
  rw [List.getD_eq_getElem?_getD, List.getD_eq_getElem?_getD,
    List.getElem?_set_ne h]

/-! ### Successful expansion -/

theorem expand_success_fields (ok : Bool) (a : pak__arr)
    (hsig : a.sig = PAK_ARR_SIGNATURE) (h0 : 0 ≤ a.count)
    (h1 : a.count ≤ a.max) (hr : 1 ≤ a.rate)
    (hrc : (pak__arr_expand ok a).rc = 0) :
    ok = true ∧
    (pak__arr_expand ok a).arr.count = a.count ∧
    (pak__arr_expand ok a).arr.max = a.max + a.rate ∧
    (pak__arr_expand ok a).arr.rate = a.rate ∧
    (pak__arr_expand ok a).arr.elem_sz = a.elem_sz ∧
    (pak__arr_expand ok a).arr.sig = a.sig ∧
    (pak__arr_expand ok a).arr.data =
      reallocData a.data a.elem_sz (a.max + a.rate) := by
  have hcond : 0 < a.max + a.rate ∧ a.sig = PAK_ARR_SIGNATURE :=
    ⟨by omega, hsig⟩
  unfold pak__arr_expand at hrc ⊢
  have hz := resize_rc ok a (a.max + a.rate)
  rw [if_pos hcond] at hz
  rw [hz] at hrc
  have hok : ok = true := by
    by_cases hok : ok = true
    · exact hok
    · rw [if_neg hok] at hrc; omega
  subst hok
  refine ⟨rfl, ?_, ?_, resize_rate _ _ _, resize_elem_sz _ _ _,
    resize_sig _ _ _, ?_⟩
  · rw [resize_count, if_pos hcond]
    split_ifs <;> omega
  · rw [resize_max, if_pos hcond]
  · rw [resize_data, if_pos hcond, if_pos rfl]

/-! ### Claim C6 -/

/-- C6: for a valid vector, pushing with an element size different from the
vector's `elem_sz` fails and leaves the whole vector unchanged; when the
sizes match and the push succeeds, the pushed bytes land in the slot at the
previous `count`, `count` goes up by exactly one, and the capacity is first
grown by one growth rate exactly when the vector was full (`count == max`),
and left unchanged otherwise. -/
theorem C6_push_size_guard (ok : Bool) (a : pak__arr) (sz : Nat) (e : List Nat)
    (hsig : a.sig = PAK_ARR_SIGNATURE) (h0 : 0 ≤ a.count)
    (h1 : a.count ≤ a.max) (hr : 1 ≤ a.rate)
    (hd : a.data.length = a.max.toNat) :
    (sz ≠ a.elem_sz →
      pak__arr_push ok a sz e = { rc := -1, arr := a, gcCalls := [] }) ∧
    (sz = a.elem_sz → (pak__arr_push ok a sz e).rc = 0 →
      (pak__arr_push ok a sz e).arr.count = a.count + 1 ∧
      pak_arr_notype_get (pak__arr_push ok a sz e).arr a.count = e ∧
      (a.count = a.max → (pak__arr_push ok a sz e).arr.max = a.max + a.rate) ∧
      (a.count < a.max → (pak__arr_push ok a sz e).arr.max = a.max)) := by
  constructor
  · intro hne
    simp [pak__arr_push, hsig, hne]
  · intro hsz hrc0
    rcases push_cases ok a sz e with ⟨hns, _⟩ | ⟨_, hne, _⟩ |
      ⟨_, _, r, hr2, ⟨hrc, heq⟩ | ⟨_, heq⟩⟩
    · exact absurd hsig hns
    · exact absurd hsz hne
    · by_cases hfull : a.count ≥ a.max
      · rw [if_pos hfull] at hr2
        subst hr2
        obtain ⟨hok, hcnt, hmax, -, hesz, -, hdata⟩ :=
          expand_success_fields ok a hsig h0 h1 hr hrc
        rw [heq]
        refine ⟨?_, ?_, ?_, ?_⟩
        · dsimp only; omega
        · unfold pak_arr_notype_get
          dsimp only
          rw [hcnt, hdata, add_sub_cancel_right]
          exact getD_set_self _ _ _ (by rw [reallocData_length]; omega)
        · intro _; dsimp only; omega
        · intro hlt; omega
      · rw [if_neg hfull] at hr2
        subst hr2
        rw [heq]
        refine ⟨?_, ?_, ?_, ?_⟩
        · dsimp only
        · unfold pak_arr_notype_get
          dsimp only
          rw [add_sub_cancel_right]
          exact getD_set_self _ _ _ (by omega)
        · intro hEq; omega
        · intro _; dsimp only
    · rw [heq] at hrc0
      simp at hrc0

/-- Concrete input for applying `C6_push_size_guard`: a full 1-slot vector,
so the successful push exercises the automatic expansion. -/
def c6w : pak__arr :=
  { count := 1, max := 1, rate := 1, elem_sz := 1, sig := PAK_ARR_SIGNATURE,
    hasGc := false, data := [[9]] }

theorem C6_witness :
    (c6w.sig = PAK_ARR_SIGNATURE ∧ 0 ≤ c6w.count ∧ c6w.count ≤ c6w.max ∧
      1 ≤ c6w.rate ∧ c6w.data.length = c6w.max.toNat) ∧
    ((1 ≠ c6w.elem_sz →
       pak__arr_push true c6w 1 [5] = { rc := -1, arr := c6w, gcCalls := [] }) ∧
     (1 = c6w.elem_sz → (pak__arr_push true c6w 1 [5]).rc = 0 →
       (pak__arr_push true c6w 1 [5]).arr.count = c6w.count + 1 ∧
       pak_arr_notype_get (pak__arr_push true c6w 1 [5]).arr c6w.count = [5] ∧
       (c6w.count = c6w.max →
         (pak__arr_push true c6w 1 [5]).arr.max = c6w.max + c6w.rate) ∧
       (c6w.count < c6w.max →
         (pak__arr_push true c6w 1 [5]).arr.max = c6w.max))) :=
  ⟨⟨rfl, by decide, by decide, by decide, by decide⟩,
   C6_push_size_guard true c6w 1 [5] rfl (by decide) (by decide) (by decide)
     (by decide)⟩

/-! ### Claim C9 -/

/-- Full well-formedness of a live vector: intact signature, the numeric
header invariant, and a buffer holding exactly `max` slots. -/
def pak_arr_wf (a : pak__arr) : Prop :=
  a.sig = PAK_ARR_SIGNATURE ∧ 0 ≤ a.count ∧ a.count ≤ a.max ∧ 1 ≤ a.max ∧
  1 ≤ a.rate ∧ a.data.length = a.max.toNat

theorem push_true_spec (a : pak__arr) (v : List Nat) (h : pak_arr_wf a) :
    (pak__arr_push true a a.elem_sz v).rc = 0 ∧
    pak_arr_wf (pak__arr_push true a a.elem_sz v).arr ∧
    (pak__arr_push true a a.elem_sz v).arr.elem_sz = a.elem_sz ∧
    (pak__arr_push true a a.elem_sz v).arr.count = a.count + 1 ∧
    pak_arr_notype_get (pak__arr_push true a a.elem_sz v).arr a.count = v ∧
    ∀ i : Int, 0 ≤ i → i < a.count →
      pak_arr_notype_get (pak__arr_push true a a.elem_sz v).arr i =
        pak_arr_notype_get a i := by
  obtain ⟨hsig, h0, h1, h2, h3, hd⟩ := h
  rcases push_cases true a a.elem_sz v with ⟨hns, _⟩ | ⟨_, hne, _⟩ |
    ⟨_, _, r, hr2, ⟨hrc, heq⟩ | ⟨hrc, heq⟩⟩
  · exact absurd hsig hns
  · exact absurd rfl hne
  · by_cases hfull : a.count ≥ a.max
    · rw [if_pos hfull] at hr2
      subst hr2
      obtain ⟨-, hcnt, hmax, hrate, hesz, hsg, hdata⟩ :=
        expand_success_fields true a hsig h0 h1 h3 hrc
      rw [heq]
      refine ⟨rfl, ?_, ?_, ?_, ?_, ?_⟩
      · refine ⟨?_, ?_, ?_, ?_, ?_, ?_⟩ <;> dsimp only
        · rw [hsg]; exact hsig
        · omega
        · omega
        · omega
        · omega
        · rw [List.length_set, hdata, reallocData_length, hmax]
      · dsimp only; exact hesz
      · dsimp only; omega
      · unfold pak_arr_notype_get
        dsimp only
        rw [hcnt, hdata, add_sub_cancel_right]
        exact getD_set_self _ _ _ (by rw [reallocData_length]; omega)
      · intro i hi0 hi
        unfold pak_arr_notype_get
        dsimp only
        rw [hcnt, hdata, add_sub_cancel_right,
          getD_set_ne _ _ _ _ (by omega)]
        exact reallocData_getD _ _ _ _ (by omega) (by omega)
    · rw [if_neg hfull] at hr2
      subst hr2
      rw [heq]
      refine ⟨rfl, ?_, rfl, ?_, ?_, ?_⟩
      · refine ⟨hsig, ?_, ?_, h2, h3, ?_⟩ <;> dsimp only
        · omega
        · omega
        · rw [List.length_set]; exact hd
      · dsimp only
      · unfold pak_arr_notype_get
        dsimp only
        rw [add_sub_cancel_right]
        exact getD_set_self _ _ _ (by omega)
      · intro i hi0 hi
        unfold pak_arr_notype_get
        dsimp only
        rw [add_sub_cancel_right, getD_set_ne _ _ _ _ (by omega)]
  · -- with every allocation succeeding a push from a well-formed vector
    -- cannot fail
    exfalso
    by_cases hfull : a.count ≥ a.max
    · rw [if_pos hfull] at hr2
      subst hr2
      have hz := resize_rc true a (a.max + a.rate)
      rw [if_pos ⟨by omega, hsig⟩, if_pos rfl] at hz
      exact hrc (by unfold pak__arr_expand; exact hz)
    · rw [if_neg hfull] at hr2
      subst hr2
      exact hrc rfl

/-- Pushing a list of values in order through the engine, each push using the
vector's own element size, with every allocation succeeding; `none` as soon
as one push fails. -/
def pak_pushSeq (a : pak__arr) : List (List Nat) → Option pak__arr
  | [] => some a
  | v :: vs =>
    if (pak__arr_push true a (pak_arr_elem_sz a) v).rc = 0 then
      pak_pushSeq (pak__arr_push true a (pak_arr_elem_sz a) v).arr vs
    else none

theorem pushSeq_spec (vs : List (List Nat)) (a : pak__arr)
    (h : pak_arr_wf a) :
    ∃ b, pak_pushSeq a vs = some b ∧ pak_arr_wf b ∧
      b.count = a.count + vs.length ∧
      (∀ i : Int, 0 ≤ i → i < a.count →
        pak_arr_notype_get b i = pak_arr_notype_get a i) ∧
      (∀ j : Nat, j < vs.length →
        pak_arr_notype_get b (a.count + j) = vs.getD j []) := by
  induction vs generalizing a with
  | nil =>
    exact ⟨a, rfl, h, by simp, fun i _ _ => rfl, by simp⟩
  | cons v vs ih =>
    obtain ⟨hrc, hwf, hes, hcnt, hlast, hpres⟩ := push_true_spec a v h
    obtain ⟨b, hseq, hbwf, hbcnt, hbpres, hbnew⟩ :=
      ih (pak__arr_push true a a.elem_sz v).arr hwf
    refine ⟨b, ?_, hbwf, ?_, ?_, ?_⟩
    · unfold pak_pushSeq pak_arr_elem_sz
      rw [if_pos hrc]
      exact hseq
    · rw [hbcnt, hcnt]
      simp only [List.length_cons]
      push_cast
      omega
    · intro i hi0 hi
      rw [hbpres i hi0 (by omega), hpres i hi0 hi]
    · intro j hj
      cases j with
      | zero =>
        have := hbpres a.count h.2.1 (by omega)
        simp only [Nat.cast_zero, add_zero, List.getD_cons_zero]
        rw [this, hlast]
      | succ j =>
        have hj2 : j < vs.length := by
          simp only [List.length_cons] at hj
          omega
        have := hbnew j hj2
        rw [hcnt] at this
        simp only [List.getD_cons_succ]
        rw [show a.count + (((j : Nat) + 1 : Nat) : Int) =
          a.count + 1 + (j : Int) by push_cast; ring]
        exact this

/-- C9: starting from a successful create with positive capacity and pushing
`v0..vN-1` in order (all pushes succeed when every allocation succeeds),
reading indices `0..N-1` afterwards returns exactly `v0..vN-1`, no matter how
many automatic expansions happened along the way. -/
theorem C9_round_trip (sz0 : Nat) (cap : Int) (vs : List (List Nat))
    (a0 : pak__arr) (hnew : pak__arr_new true sz0 cap = some a0) :
    ∃ b, pak_pushSeq a0 vs = some b ∧
      pak_arr_count b = vs.length ∧
      ∀ i : Nat, i < vs.length → pak_arr_notype_get b i = vs.getD i [] := by
  have hcap : cap > 0 := by
    by_cases h : cap > 0
    · exact h
    · simp [pak__arr_new, h] at hnew
  have ha0 : a0 =
      { count := 0, max := cap, rate := cap, elem_sz := sz0,
        sig := PAK_ARR_SIGNATURE, hasGc := false,
        data := List.replicate cap.toNat (List.replicate sz0 0) } := by
    simp only [pak__arr_new, if_pos hcap, Option.some.injEq, if_true,
      eq_self_iff_true, ite_true] at hnew
    exact hnew.symm
  have hwf : pak_arr_wf a0 := by
    rw [ha0]
    refine ⟨rfl, ?_, ?_, ?_, ?_, ?_⟩ <;> dsimp only <;>
      first
        | omega
        | simp
  have hc0 : a0.count = 0 := by rw [ha0]
  obtain ⟨b, hseq, -, hbcnt, -, hbnew⟩ := pushSeq_spec vs a0 hwf
  refine ⟨b, hseq, ?_, ?_⟩
  · unfold pak_arr_count
    omega
  · intro i hi
    have hv := hbnew i hi
    rw [hc0, zero_add] at hv
    exact hv

/-- Concrete freshly created 1-slot vector for applying `C9_round_trip`;
pushing two values through it forces one automatic expansion. -/
def c9w : pak__arr :=
  { count := 0, max := 1, rate := 1, elem_sz := 1, sig := PAK_ARR_SIGNATURE,
    hasGc := false, data := [[0]] }

theorem C9_witness :
    pak__arr_new true 1 1 = some c9w ∧
    ∃ b, pak_pushSeq c9w [[5], [7]] = some b ∧
      pak_arr_count b = ([[5], [7]] : List (List Nat)).length ∧
      ∀ i : Nat, i < ([[5], [7]] : List (List Nat)).length →
        pak_arr_notype_get b i = ([[5], [7]] : List (List Nat)).getD i [] :=
  ⟨by decide, C9_round_trip 1 1 [[5], [7]] c9w (by decide)⟩
